import Mathlib

/-!
Shallow embedding of the query-coordination core of go-libp2p-kad-dht
(v2/coord): the identity-conversion helpers of `conversion.go` and the
`PooledQueryBehaviour` adapter of `query.go`.

Go values are modelled as follows:
* `peer.ID` and `kadt.PeerID` are strings in Go; both are `PeerID := String`.
* `kad.NodeID[key.Key256]` is a Go interface; its dynamic type is either the
  concrete `kadt.PeerID` or some other implementation.  `NodeID` is the sum
  of the two, with `foreign` standing for every non-`kadt.PeerID`
  implementation.
* A Go `panic` is modelled by returning `none` from the embedded function.
-/

namespace Coord

/-- Go `peer.ID` / `kadt.PeerID`: both are string types in Go. -/
abbrev PeerID := String

/-- Go `ma.Multiaddr`, opaque here: only carried through. -/
abbrev Multiaddr := String

/-- Go `KadKey = key.Key256`, opaque here: only carried through. -/
abbrev KadKey := Nat

/-- Go `query.QueryID` is a string type. -/
abbrev QueryID := String

/-- A `kad.NodeID[key.Key256]` interface value: the dynamic type is either the
concrete `kadt.PeerID` or some other implementation of the interface. -/
inductive NodeID where
  | peerID (p : PeerID)
  | foreign (tag : Nat)
deriving DecidableEq, Repr

/-- A `kad.NodeInfo[key.Key256, ma.Multiaddr]` value: a node identifier together with
its addresses (the two observations `ID()` and `Addresses()` the conversions
make of the interface). -/
structure NodeInfo where
  id : NodeID
  addrs : List Multiaddr
deriving DecidableEq, Repr

/-- Go `peer.AddrInfo`. -/
structure AddrInfo where
  id : PeerID
  addrs : List Multiaddr
deriving DecidableEq, Repr

/-- Function `NodeInfoToAddrInfo` (conversion.go:14): `info.ID().(kadt.PeerID)` is a
type assertion that panics (`none`) when the dynamic type is not
`kadt.PeerID`. -/
def NodeInfoToAddrInfo (info : NodeInfo) : Option AddrInfo :=
  match info.id with
  | .peerID p => some { id := p, addrs := info.addrs }
  | .foreign _ => none

/-- Function `NodeIDToAddrInfo` (conversion.go:24): panics (`none`) unless the dynamic
type is `kadt.PeerID`; the result carries no addresses. -/
def NodeIDToAddrInfo (id : NodeID) : Option AddrInfo :=
  match id with
  | .peerID p => some { id := p, addrs := [] }
  | .foreign _ => none

/-- Function `SliceOfNodeInfoToSliceOfAddrInfo` (conversion.go:33): converts each
element in order; panics (`none`) as soon as one element's identifier is not
a `kadt.PeerID`. -/
def SliceOfNodeInfoToSliceOfAddrInfo : List NodeInfo → Option (List AddrInfo)
  | [] => some []
  | info :: rest =>
    match info.id with
    | .peerID p =>
      match SliceOfNodeInfoToSliceOfAddrInfo rest with
      | some tail => some ({ id := p, addrs := info.addrs } :: tail)
      | none => none
    | .foreign _ => none

/-- Function `SliceOfPeerIDToSliceOfNodeID` (conversion.go:46): wraps each `peer.ID`
as a `kadt.PeerID`, which implements `kad.NodeID`.  Total, never panics. -/
def SliceOfPeerIDToSliceOfNodeID (peers : List PeerID) : List NodeID :=
  peers.map NodeID.peerID

/-- Function `NodeIDToPeerID` (conversion.go:56): panics (`none`) unless the dynamic
type is `kadt.PeerID`. -/
def NodeIDToPeerID (id : NodeID) : Option PeerID :=
  match id with
  | .peerID p => some p
  | .foreign _ => none

/-! ## The event and pool-state sum types of `query.go`

`BehaviourEvent` is an interface in Go; the behaviour switches on the four
inbound variants and panics on everything else.  `foreignEvent` stands for
any implementation outside the variants appearing in `query.go`. -/

/-- Opaque per-query summary statistics (`query.QueryStats`). -/
abbrev QueryStats := Nat

/-- Opaque error value carried by failure events. -/
abbrev ErrVal := String

/-- Identifies a registered notification target (`NotifyCloser`) by an
opaque handle; the behaviour only stores and invokes it. -/
abbrev WaiterId := Nat

/-- Value `CloserNodesResponse(target, closerNodes)`: the response message built
from a target key and the discovered nodes. -/
structure Resp where
  target : KadKey
  closerNodes : List NodeInfo
deriving DecidableEq, Repr

/-- The `BehaviourEvent` variants of `query.go`, inbound and outbound, plus
`foreignEvent` for any variant outside this closed set. -/
inductive BehaviourEvent where
  | startQuery (queryID : QueryID) (target : KadKey) (protocolID : String)
      (message : Nat) (knownClosestNodes : List PeerID) (notify : Option WaiterId)
  | stopQuery (queryID : QueryID)
  | getCloserNodesSuccess (queryID : QueryID) (dst : AddrInfo) (target : KadKey)
      (closerNodes : List NodeInfo)
  | getCloserNodesFailure (queryID : QueryID) (dst : AddrInfo) (err : ErrVal)
  | addAddrInfo (nodeInfo : NodeInfo)
  | outboundGetCloserNodes (queryID : QueryID) (dst : AddrInfo) (target : KadKey)
  | queryProgressed (nodeID : PeerID) (queryID : QueryID) (response : Resp)
  | queryFinished (queryID : QueryID) (stats : QueryStats)
  | foreignEvent (tag : Nat)
deriving DecidableEq, Repr

/-- The `query.PoolEvent` variants built by `Notify` (plus `poll`, used by
`Perform`). -/
inductive PoolEvent where
  | addQuery (queryID : QueryID) (target : KadKey) (protocolID : String)
      (message : Nat) (knownClosestNodes : List NodeID)
  | stopQuery (queryID : QueryID)
  | messageResponse (nodeID : PeerID) (queryID : QueryID) (response : Resp)
  | messageFailure (nodeID : PeerID) (queryID : QueryID) (err : ErrVal)
  | poll
deriving DecidableEq, Repr

/-- The `query.PoolState` variants `advancePool` switches on, plus
`foreignState` for any state outside this closed set.  In
`StatePoolQueryMessage` the destination is a generic `kad.NodeID`. -/
inductive PoolState where
  | queryMessage (queryID : QueryID) (nodeID : NodeID) (target : KadKey)
  | waitingAtCapacity
  | waitingWithCapacity
  | queryFinished (queryID : QueryID) (stats : QueryStats)
  | queryTimeout (queryID : QueryID)
  | idle
  | foreignState (tag : Nat)
deriving DecidableEq, Repr

/-- The `query.Pool` collaborator, abstracted at its interface: a state of
type `σ` and `Advance : state × event → state × PoolState`.  The pool's
internals are outside `src/`; the behaviour only calls `Advance`. -/
structure PoolModel (σ : Type) where
  advance : σ → PoolEvent → σ × PoolState

/-- The mutable fields of `PooledQueryBehaviour`: the pool, the waiter
registry (`waiters` map, modelled as an association list with map lookup
semantics), the pending outbound queue, and the one-slot `ready` channel
(`Bool` = a token is buffered). -/
structure BState (σ : Type) where
  pool : σ
  waiters : List (QueryID × WaiterId)
  pending : List BehaviourEvent
  ready : Bool
deriving DecidableEq, Repr

/-- Map lookup `p.waiters[qid]`. -/
def lookupWaiter : List (QueryID × WaiterId) → QueryID → Option WaiterId
  | [], _ => none
  | (q, w) :: rest, qid => if q = qid then some w else lookupWaiter rest qid

/-- Map insert (overwrite) `p.waiters[qid] = w`. -/
def insertWaiter (ws : List (QueryID × WaiterId)) (qid : QueryID) (w : WaiterId) :
    List (QueryID × WaiterId) :=
  (qid, w) :: ws.filter (fun p => p.1 ≠ qid)

/-- A call `waiter.Notify(ctx, ev)` delivered to a registered waiter. -/
abbrev WaiterNotification := WaiterId × BehaviourEvent

/-- Sending on the one-slot `ready` channel inside `select`/`default`: the
slot ends up occupied either way, and the send never blocks (a write finding
the slot full is dropped by the `default` branch). -/
def trySendReady (_ : Bool) : Bool := true

/-- Result of `advancePool`: the updated behaviour state, the returned
`(BehaviourEvent, bool)` pair (`some` = `ok`), and the waiter notifications
and waiter closes performed, in order.  The whole result is `none` when the
Go code panics. -/
structure AdvanceRes (σ : Type) where
  state : BState σ
  out : Option BehaviourEvent
  notifs : List WaiterNotification
  closes : List WaiterId
deriving DecidableEq, Repr

/-- Method `PooledQueryBehaviour.advancePool` (query.go:147): one `pool.Advance`
call followed by the switch on the resulting pool state.  `Queryfinished`
notifies and closes the registered waiter (the registry entry is NOT
deleted); `QueryTimeout` is an empty TODO branch; an unknown state variant
panics (`none`); `StatePoolQueryMessage` converts the destination via
`NodeIDToAddrInfo`, which panics on a non-`kadt.PeerID` identity. -/
def advancePool (P : PoolModel σ) (s : BState σ) (ev : PoolEvent) :
    Option (AdvanceRes σ) :=
  let adv := P.advance s.pool ev
  let s' : BState σ := { s with pool := adv.1 }
  match adv.2 with
  | .queryMessage qid nid target =>
    match NodeIDToAddrInfo nid with
    | some dst => some ⟨s', some (.outboundGetCloserNodes qid dst target), [], []⟩
    | none => none
  | .waitingAtCapacity => some ⟨s', none, [], []⟩
  | .waitingWithCapacity => some ⟨s', none, [], []⟩
  | .queryFinished qid stats =>
    match lookupWaiter s.waiters qid with
    | some w => some ⟨s', none, [(w, .queryFinished qid stats)], [w]⟩
    | none => some ⟨s', none, [], []⟩
  | .queryTimeout _ => some ⟨s', none, [], []⟩
  | .idle => some ⟨s', none, [], []⟩
  | .foreignState _ => none

/-- Result of the `switch ev := ev.(type)` block of `Notify` (query.go:46):
the pool command `cmd`, the state after the case's side effects, and the
progress notifications delivered inside the case. -/
structure SwitchRes (σ : Type) where
  cmd : PoolEvent
  state : BState σ
  notifs : List WaiterNotification
deriving DecidableEq, Repr

/-- The `switch` block of `Notify`: translates the inbound event into a pool
command and performs the case's side effects.  `StartQuery` registers the
waiter when a target was supplied; `GetCloserNodesSuccess` appends one
`EventAddAddrInfo` per closer node and notifies the registered waiter with a
progress event; any variant outside the four cases panics (`none`). -/
def notifySwitch (s : BState σ) (ev : BehaviourEvent) : Option (SwitchRes σ) :=
  match ev with
  | .startQuery qid target protocolID message known notify =>
    let cmd := PoolEvent.addQuery qid target protocolID message
      (SliceOfPeerIDToSliceOfNodeID known)
    let ws := match notify with
      | some w => insertWaiter s.waiters qid w
      | none => s.waiters
    some ⟨cmd, { s with waiters := ws }, []⟩
  | .stopQuery qid => some ⟨.stopQuery qid, s, []⟩
  | .getCloserNodesSuccess qid dst target closer =>
    let s' := { s with
      pending := s.pending ++ closer.map (fun info => .addAddrInfo info) }
    let ns : List WaiterNotification :=
      match lookupWaiter s.waiters qid with
      | some w => [(w, .queryProgressed dst.id qid ⟨target, closer⟩)]
      | none => []
    some ⟨.messageResponse dst.id qid ⟨target, closer⟩, s', ns⟩
  | .getCloserNodesFailure qid dst err =>
    some ⟨.messageFailure dst.id qid err, s, []⟩
  | _ => none

/-- Result of `Notify`: the final state, the pool command that was passed to
`pool.Advance`, and the waiter notifications and closes, in order. -/
structure NotifyRes (σ : Type) where
  cmd : PoolEvent
  state : BState σ
  notifs : List WaiterNotification
  closes : List WaiterId
deriving DecidableEq, Repr

/-- Step `if ok { p.pending = append(p.pending, ev) }` (query.go:97): append the
outbound event produced by an `advancePool` call, when there is one. -/
def appendOut (s : BState σ) (out : Option BehaviourEvent) : BState σ :=
  match out with
  | some e => { s with pending := s.pending ++ [e] }
  | none => s

/-- Step `if len(p.pending) > 0` then non-blocking send on `ready`
(query.go:100): the non-blocking readiness signal, sent only when the
pending queue is non-empty. -/
def signalReady (s : BState σ) : BState σ :=
  if s.pending.isEmpty then s else { s with ready := trySendReady s.ready }

/-- Method `PooledQueryBehaviour.Notify` (query.go:38): the translation switch,
then one `advancePool` on the produced command, appending its outbound event
(if any) to the pending queue, then a non-blocking `ready` send when the
queue is non-empty.  `none` models a panic (unknown event variant, or a
panic inside `advancePool`). -/
def Notify (P : PoolModel σ) (s : BState σ) (ev : BehaviourEvent) :
    Option (NotifyRes σ) :=
  match notifySwitch s ev with
  | none => none
  | some core =>
    match advancePool P core.state core.cmd with
    | none => none
    | some adv =>
      some ⟨core.cmd, signalReady (appendOut adv.state adv.out),
        core.notifs ++ adv.notifs, adv.closes⟩

/-- Result of `Perform`: the returned `(BehaviourEvent, bool)` pair (`some`
= `ok`), the final state, and the waiter notifications and closes. -/
structure PerformRes (σ : Type) where
  out : Option BehaviourEvent
  state : BState σ
  notifs : List WaiterNotification
  closes : List WaiterId
deriving DecidableEq, Repr

/-- The `for` loop body of `Perform` (query.go:120), with explicit fuel:
dequeue the head of the pending queue if non-empty (re-signalling `ready`
when events remain), otherwise advance the pool with a poll event; return
its outbound event when `ok`, and `(nil, false)` when the queue is still
empty.  The loop repeats only if `advancePool` left the queue non-empty,
which never happens (`performLoop_fuel` below). -/
def performLoop (P : PoolModel σ) : Nat → BState σ → Option (PerformRes σ)
  | 0, _ => none
  | fuel + 1, s =>
    match s.pending with
    | ev :: rest =>
      some ⟨some ev, signalReady { s with pending := rest }, [], []⟩
    | [] =>
      match advancePool P s .poll with
      | none => none
      | some adv =>
        match adv.out with
        | some e => some ⟨some e, adv.state, adv.notifs, adv.closes⟩
        | none =>
          if adv.state.pending.isEmpty then
            some ⟨none, adv.state, adv.notifs, adv.closes⟩
          else
            match performLoop P fuel adv.state with
            | none => none
            | some r =>
              some { r with notifs := adv.notifs ++ r.notifs,
                            closes := adv.closes ++ r.closes }

/-- Frame property: `advancePool` never touches the waiter registry, the pending queue or
the `ready` flag: only the pool value changes. -/
theorem advancePool_frame (P : PoolModel σ) (s : BState σ) (ev : PoolEvent)
    (r : AdvanceRes σ) (h : advancePool P s ev = some r) :
    r.state.waiters = s.waiters ∧ r.state.pending = s.pending ∧
      r.state.ready = s.ready := by
  obtain ⟨⟨rpool, rws, rpend, rrdy⟩, rout, rns, rcs⟩ := r
  simp only [advancePool] at h
  rcases hadv : P.advance s.pool ev with ⟨pool', pst⟩
  rw [hadv] at h
  cases pst with
  | queryMessage qid nid target =>
    cases hc : NodeIDToAddrInfo nid <;> simp [hc] at h <;> simp_all
  | queryFinished qid stats =>
    cases hw : lookupWaiter s.waiters qid <;> simp [hw] at h <;> simp_all
  | foreignState tag => simp at h
  | _ => simp_all

/-- The `Perform` loop exits within its first iteration: starting from any
state, one unit of fuel decides the result. -/
theorem performLoop_fuel (P : PoolModel σ) (n : Nat) (s : BState σ) :
    performLoop P (n + 1) s = performLoop P 1 s := by
  cases hp : s.pending with
  | cons ev rest => simp [performLoop, hp]
  | nil =>
    cases hadv : advancePool P s .poll with
    | none => simp [performLoop, hp, hadv]
    | some adv =>
      have hfr := advancePool_frame P s .poll adv hadv
      cases hout : adv.out with
      | some e => simp [performLoop, hp, hadv, hout]
      | none =>
        have hpend : adv.state.pending = [] := by rw [hfr.2.1, hp]
        simp [performLoop, hp, hadv, hout, hpend]

/-- Method `PooledQueryBehaviour.Perform` (query.go:112): the loop, which always
terminates within one iteration. -/
def Perform (P : PoolModel σ) (s : BState σ) : Option (PerformRes σ) :=
  performLoop P 1 s

/-- A concrete pool for running the behaviour on examples: its `Advance`
replays a fixed script of pool states, one per call, and answers `idle`
once the script is exhausted. -/
def scriptPool : PoolModel (List PoolState) :=
  ⟨fun script _ => (script.tail, script.headD .idle)⟩

/-! ## Frame lemmas for the small state-updating helpers -/

@[simp]
theorem appendOut_pending (s : BState σ) (out : Option BehaviourEvent) :
    (appendOut s out).pending = s.pending ++ out.toList := by
  cases out <;> simp [appendOut]

@[simp]
theorem appendOut_waiters (s : BState σ) (out : Option BehaviourEvent) :
    (appendOut s out).waiters = s.waiters := by
  cases out <;> simp [appendOut]

@[simp]
theorem appendOut_pool (s : BState σ) (out : Option BehaviourEvent) :
    (appendOut s out).pool = s.pool := by
  cases out <;> simp [appendOut]

@[simp]
theorem appendOut_ready (s : BState σ) (out : Option BehaviourEvent) :
    (appendOut s out).ready = s.ready := by
  cases out <;> simp [appendOut]

@[simp]
theorem signalReady_pending (s : BState σ) :
    (signalReady s).pending = s.pending := by
  unfold signalReady
  split <;> simp

@[simp]
theorem signalReady_waiters (s : BState σ) :
    (signalReady s).waiters = s.waiters := by
  unfold signalReady
  split <;> simp

@[simp]
theorem signalReady_pool (s : BState σ) :
    (signalReady s).pool = s.pool := by
  unfold signalReady
  split <;> simp

theorem signalReady_ready_of_pending (s : BState σ) (h : s.pending ≠ []) :
    (signalReady s).ready = true := by
  unfold signalReady
  rw [if_neg (by simpa using h)]
  simp [trySendReady]

/-- Unfolding `Notify` when it does not panic: the switch produced `core`,
the pool advance produced `adv`, and the result is assembled from both. -/
theorem notify_unfold (P : PoolModel σ) (s : BState σ) (ev : BehaviourEvent)
    (r : NotifyRes σ) (h : Notify P s ev = some r) :
    ∃ core adv, notifySwitch s ev = some core ∧
      advancePool P core.state core.cmd = some adv ∧
      r = ⟨core.cmd, signalReady (appendOut adv.state adv.out),
        core.notifs ++ adv.notifs, adv.closes⟩ := by
  unfold Notify at h
  cases hsw : notifySwitch s ev with
  | none => rw [hsw] at h; exact absurd h (by simp)
  | some core =>
    rw [hsw] at h
    dsimp only at h
    cases hadv : advancePool P core.state core.cmd with
    | none => rw [hadv] at h; exact absurd h (by simp)
    | some adv =>
      rw [hadv] at h
      dsimp only at h
      exact ⟨core, adv, rfl, hadv, (Option.some.inj h).symm⟩

/-- The switch of `Notify` only ever appends to the pending queue (the
`EventAddAddrInfo` events of a `GetCloserNodesSuccess`); it never drops or
reorders what is already queued. -/
theorem notifySwitch_pending_extends (s : BState σ) (ev : BehaviourEvent)
    (core : SwitchRes σ) (h : notifySwitch s ev = some core) :
    ∃ d, core.state.pending = s.pending ++ d := by
  cases ev <;> simp [notifySwitch] at h
  case startQuery qid target protocolID message known notify =>
    cases notify <;> simp at h <;> rw [← h] <;> exact ⟨[], by simp⟩
  case stopQuery qid => rw [← h]; exact ⟨[], by simp⟩
  case getCloserNodesSuccess qid dst target closer =>
    rw [← h]
    exact ⟨closer.map (fun info => .addAddrInfo info), rfl⟩
  case getCloserNodesFailure qid dst err => rw [← h]; exact ⟨[], by simp⟩

/-- A waiter entry can only be found when its key is in the registry. -/
theorem lookupWaiter_eq_none_iff (ws : List (QueryID × WaiterId)) (qid : QueryID) :
    lookupWaiter ws qid = none ↔ ∀ p ∈ ws, p.1 ≠ qid := by
  induction ws with
  | nil => simp [lookupWaiter]
  | cons hd tl ih =>
    rcases hd with ⟨q, w⟩
    by_cases hq : q = qid <;> simp [lookupWaiter, hq, ih]

/-- Every notification `advancePool` delivers is a finish event for a query
whose waiter was found in the registry. -/
theorem advancePool_notifs (P : PoolModel σ) (s : BState σ) (ev : PoolEvent)
    (adv : AdvanceRes σ) (h : advancePool P s ev = some adv) :
    ∀ n ∈ adv.notifs, ∃ q stats, n.2 = .queryFinished q stats ∧
      lookupWaiter s.waiters q = some n.1 := by
  obtain ⟨rstate, rout, rns, rcs⟩ := adv
  simp only [advancePool] at h
  rcases hadv : P.advance s.pool ev with ⟨pool', pst⟩
  rw [hadv] at h
  cases pst with
  | queryMessage qid nid target =>
    cases hc : NodeIDToAddrInfo nid <;> simp [hc] at h <;> simp_all
  | queryFinished qid stats =>
    cases hw : lookupWaiter s.waiters qid <;> simp [hw] at h
    · simp_all
    · obtain ⟨_, _, hns, _⟩ := h
      subst hns
      simp_all
  | foreignState tag => simp at h
  | _ => simp_all

/-- Every notification the translation switch delivers is a progress event
for a query whose waiter was found in the registry. -/
theorem notifySwitch_notifs (s : BState σ) (ev : BehaviourEvent)
    (core : SwitchRes σ) (h : notifySwitch s ev = some core) :
    ∀ n ∈ core.notifs, ∃ q nid resp, n.2 = .queryProgressed nid q resp ∧
      lookupWaiter s.waiters q = some n.1 := by
  cases ev <;> simp [notifySwitch] at h
  case startQuery qid target protocolID message known notify =>
    cases notify <;> simp at h <;> rw [← h] <;> simp
  case stopQuery qid => rw [← h]; simp
  case getCloserNodesSuccess qid dst target closer =>
    rw [← h]
    cases hw : lookupWaiter s.waiters qid <;> simp [hw]
  case getCloserNodesFailure qid dst err => rw [← h]; simp

/-! ## Traces of behaviour calls (for the fire-and-forget property) -/

/-- One external call into the behaviour: a `Notify` with an event, or a
`Perform` by the driver loop. -/
inductive BehaviourOp where
  | notifyOp (ev : BehaviourEvent)
  | performOp
deriving DecidableEq, Repr

/-- Run one call, returning the new state and the waiter notifications it
delivered; `none` when the call panicked. -/
def runStep (P : PoolModel σ) (s : BState σ) :
    BehaviourOp → Option (BState σ × List WaiterNotification)
  | .notifyOp ev => (Notify P s ev).map fun r => (r.state, r.notifs)
  | .performOp => (Perform P s).map fun r => (r.state, r.notifs)

/-- Run a sequence of calls, collecting every waiter notification in
delivery order; a panic stops the run. -/
def runOps (P : PoolModel σ) (s : BState σ) :
    List BehaviourOp → BState σ × List WaiterNotification
  | [] => (s, [])
  | op :: rest =>
    match runStep P s op with
    | none => (s, [])
    | some (s', ns) =>
      let sr := runOps P s' rest
      (sr.1, ns ++ sr.2)

/-- Whether a waiter notification event is a progress or finish
notification for query `qid`. -/
def notifForQuery (qid : QueryID) : BehaviourEvent → Bool
  | .queryProgressed _ q _ => decide (q = qid)
  | .queryFinished q _ => decide (q = qid)
  | _ => false

/-- The event does not start query `qid` with a notification target: any
`StartQuery` for `qid` it may be is fire-and-forget. -/
def fireAndForgetForEv (qid : QueryID) : BehaviourEvent → Bool
  | .startQuery q _ _ _ _ (some _) => decide (q ≠ qid)
  | _ => true

/-- Lifts `fireAndForgetForEv` to a behaviour call. -/
def fireAndForgetOp (qid : QueryID) : BehaviourOp → Bool
  | .notifyOp ev => fireAndForgetForEv qid ev
  | .performOp => true

/-- Inserting a registration under a different key cannot make a missing
key present. -/
theorem lookupWaiter_insert_ne (ws : List (QueryID × WaiterId))
    (q' : QueryID) (w' : WaiterId) (qid : QueryID) (hne : q' ≠ qid)
    (h : lookupWaiter ws qid = none) :
    lookupWaiter (insertWaiter ws q' w') qid = none := by
  rw [lookupWaiter_eq_none_iff] at h ⊢
  intro p hp
  simp only [insertWaiter, List.mem_cons, List.mem_filter] at hp
  rcases hp with rfl | ⟨hmem, _⟩
  · exact hne
  · exact h p hmem

/-- A `Notify` call on a state where `qid` has no registered waiter, with
an event that does not register one, leaves `qid` unregistered and delivers
no notification for `qid`. -/
theorem notify_fire_and_forget_step (P : PoolModel σ) (s : BState σ)
    (ev : BehaviourEvent) (r : NotifyRes σ) (qid : QueryID)
    (h : Notify P s ev = some r) (hff : fireAndForgetForEv qid ev = true)
    (hnone : lookupWaiter s.waiters qid = none) :
    lookupWaiter r.state.waiters qid = none ∧
      ∀ n ∈ r.notifs, notifForQuery qid n.2 = false := by
  obtain ⟨core, adv, hsw, hadv, rfl⟩ := notify_unfold P s ev r h
  have hfr := advancePool_frame P core.state core.cmd adv hadv
  have hcore : lookupWaiter core.state.waiters qid = none := by
    cases ev <;> simp [notifySwitch] at hsw
    case startQuery q target protocolID message known wopt =>
      cases wopt with
      | none => simp at hsw; rw [← hsw]; exact hnone
      | some w =>
        simp at hsw
        rw [← hsw]
        simp only [fireAndForgetForEv, decide_eq_true_eq] at hff
        exact lookupWaiter_insert_ne s.waiters q w qid hff hnone
    all_goals (rw [← hsw]; exact hnone)
  refine ⟨by simpa [hfr.1] using hcore, ?_⟩
  intro n hn
  simp only [NotifyRes.notifs, List.mem_append] at hn
  rcases hn with hn | hn
  · obtain ⟨q, nid, resp, heq, hl⟩ := notifySwitch_notifs s ev core hsw n hn
    have hqne : q ≠ qid := fun hq => by rw [hq, hnone] at hl; exact absurd hl (by simp)
    simp [heq, notifForQuery, hqne]
  · obtain ⟨q, stats, heq, hl⟩ := advancePool_notifs P core.state core.cmd adv hadv n hn
    have hqne : q ≠ qid := fun hq => by rw [hq, hcore] at hl; exact absurd hl (by simp)
    simp [heq, notifForQuery, hqne]

/-- A `Perform` call on a state where `qid` has no registered waiter leaves
`qid` unregistered and delivers no notification for `qid`. -/
theorem perform_fire_and_forget_step (P : PoolModel σ) (s : BState σ)
    (r : PerformRes σ) (qid : QueryID) (h : Perform P s = some r)
    (hnone : lookupWaiter s.waiters qid = none) :
    lookupWaiter r.state.waiters qid = none ∧
      ∀ n ∈ r.notifs, notifForQuery qid n.2 = false := by
  unfold Perform performLoop at h
  cases hp : s.pending with
  | cons e rest =>
    rw [hp] at h
    dsimp only at h
    obtain rfl := (Option.some.inj h).symm
    exact ⟨by simpa using hnone, by simp⟩
  | nil =>
    rw [hp] at h
    dsimp only at h
    cases hadv : advancePool P s .poll with
    | none => rw [hadv] at h; exact absurd h (by simp)
    | some adv =>
      rw [hadv] at h
      dsimp only at h
      have hfr := advancePool_frame P s .poll adv hadv
      have hns := advancePool_notifs P s .poll adv hadv
      have hres : ∀ n ∈ adv.notifs, notifForQuery qid n.2 = false := by
        intro n hn
        obtain ⟨q, stats, heq, hl⟩ := hns n hn
        have hqne : q ≠ qid := fun hq => by
          rw [hq, hnone] at hl; exact absurd hl (by simp)
        simp [heq, notifForQuery, hqne]
      cases hout : adv.out with
      | some e =>
        rw [hout] at h
        obtain rfl := (Option.some.inj h).symm
        exact ⟨by simpa [hfr.1] using hnone, hres⟩
      | none =>
        rw [hout] at h
        have hpend : adv.state.pending = [] := by rw [hfr.2.1, hp]
        rw [if_pos (by simp [hpend])] at h
        obtain rfl := (Option.some.inj h).symm
        exact ⟨by simpa [hfr.1] using hnone, hres⟩

/-! ## Claim theorems -/

/-- C6: each conversion at the identity boundary succeeds exactly on inputs
whose underlying concrete identity type is `kadt.PeerID`, and panics
(`none`) on every other concrete type — it never silently coerces. -/
theorem conversions_fail_loudly_on_foreign_identity :
    (∀ info : NodeInfo,
      (NodeInfoToAddrInfo info).isSome ↔ ∃ p, info.id = .peerID p) ∧
    (∀ id : NodeID,
      (NodeIDToAddrInfo id).isSome ↔ ∃ p, id = .peerID p) ∧
    (∀ infos : List NodeInfo,
      (SliceOfNodeInfoToSliceOfAddrInfo infos).isSome ↔
        ∀ info ∈ infos, ∃ p, info.id = .peerID p) ∧
    (∀ id : NodeID,
      (NodeIDToPeerID id).isSome ↔ ∃ p, id = .peerID p) := by
  refine ⟨fun info => ?_, fun id => ?_, fun infos => ?_, fun id => ?_⟩
  · rcases info with ⟨nid, addrs⟩
    cases nid <;> simp [NodeInfoToAddrInfo]
  · cases id <;> simp [NodeIDToAddrInfo]
  · induction infos with
    | nil => simp [SliceOfNodeInfoToSliceOfAddrInfo]
    | cons info rest ih =>
      rcases info with ⟨nid, addrs⟩
      cases nid with
      | peerID p =>
        cases hrest : SliceOfNodeInfoToSliceOfAddrInfo rest <;>
          simp [SliceOfNodeInfoToSliceOfAddrInfo, hrest] <;>
          simpa [hrest] using ih
      | foreign tag => simp [SliceOfNodeInfoToSliceOfAddrInfo]
  · cases id <;> simp [NodeIDToPeerID]

/-- The four `BehaviourEvent` variants the `Notify` switch accepts. -/
def isKnownDhtEvent : BehaviourEvent → Bool
  | .startQuery .. => true
  | .stopQuery .. => true
  | .getCloserNodesSuccess .. => true
  | .getCloserNodesFailure .. => true
  | _ => false

/-- The six `PoolState` variants the `advancePool` switch accepts. -/
def isKnownPoolState : PoolState → Bool
  | .foreignState _ => false
  | _ => true

/-- C8: dispatch over the closed event and pool-state sets is exhaustive
and a variant outside the set is a contract violation: `Notify` panics
(`none`) on any `BehaviourEvent` that is none of StartQuery, StopQuery,
GetCloserNodesSuccess, GetCloserNodesFailure; `advancePool` panics on any
pool state that is none of QueryMessage, WaitingAtCapacity,
WaitingWithCapacity, QueryFinished, QueryTimeout, Idle. -/
theorem unknown_variants_panic :
    (∀ {σ : Type} (P : PoolModel σ) (s : BState σ) (ev : BehaviourEvent),
      isKnownDhtEvent ev = false → Notify P s ev = none) ∧
    (∀ {σ : Type} (P : PoolModel σ) (s : BState σ) (ev : PoolEvent),
      isKnownPoolState (P.advance s.pool ev).2 = false →
        advancePool P s ev = none) := by
  constructor
  · intro σ P s ev h
    cases ev <;> simp [isKnownDhtEvent] at h <;> simp [Notify, notifySwitch]
  · intro σ P s ev h
    rcases hadv : P.advance s.pool ev with ⟨pool', pst⟩
    rw [hadv] at h
    cases pst <;> simp [isKnownPoolState] at h
    simp [advancePool, hadv]

/-- C8 witness: a foreign event makes `Notify` panic, and a foreign pool
state makes `advancePool` panic, at concrete inputs. -/
theorem unknown_variants_panic_witness :
    (isKnownDhtEvent (.foreignEvent 0) = false ∧
      Notify scriptPool ⟨[], [], [], false⟩ (.foreignEvent 0) = none) ∧
    (isKnownPoolState
        (scriptPool.advance (BState.pool ⟨[.foreignState 0], [], [], false⟩)
          .poll).2 = false ∧
      advancePool scriptPool ⟨[.foreignState 0], [], [], false⟩ .poll = none) :=
  ⟨⟨rfl, unknown_variants_panic.1 scriptPool ⟨[], [], [], false⟩ _ rfl⟩,
   ⟨rfl, unknown_variants_panic.2 scriptPool ⟨[.foreignState 0], [], [], false⟩
      .poll rfl⟩⟩

/-- C5: the readiness signal is a one-slot non-blocking flag.  A `Notify`
that leaves the pending queue non-empty leaves the flag set; a `Perform`
dequeue that leaves further events pending leaves the flag set; and a send
finding the slot already set simply leaves it set (the write is dropped, it
never blocks, and — the slot being a single `Bool` — at most one token is
ever buffered). -/
theorem readiness_signal_single_slot :
    (∀ {σ : Type} (P : PoolModel σ) (s : BState σ) (ev : BehaviourEvent)
        (r : NotifyRes σ), Notify P s ev = some r →
          r.state.pending ≠ [] → r.state.ready = true) ∧
    (∀ {σ : Type} (P : PoolModel σ) (s : BState σ) (e : BehaviourEvent)
        (rest : List BehaviourEvent), s.pending = e :: rest → rest ≠ [] →
          ∃ r, Perform P s = some r ∧ r.out = some e ∧
            r.state.ready = true) ∧
    (∀ b : Bool, trySendReady b = true) := by
  refine ⟨?_, ?_, fun _ => rfl⟩
  · intro σ P s ev r h hne
    obtain ⟨core, adv, hsw, hadv, rfl⟩ := notify_unfold P s ev r h
    exact signalReady_ready_of_pending _ (by simpa using hne)
  · intro σ P s e rest hp hne
    refine ⟨⟨some e, signalReady { s with pending := rest }, [], []⟩,
      by simp [Perform, performLoop, hp], rfl, ?_⟩
    exact signalReady_ready_of_pending _ (by simpa using hne)

/-- C2: `Perform` dequeues exactly the head of the pending queue when it is
non-empty (FIFO), re-signalling readiness but touching neither the pool nor
the waiter registry; when the queue is empty it drives `Pool.Advance` with a
no-op poll event, returning the produced outbound event or `(nil, false)`
when the pool has nothing to do; and a `Notify` call only ever appends to
the pending queue (its pool-advance output is enqueued before it returns),
so earlier events are drained first, in order. -/
theorem perform_fifo_and_poll :
    (∀ {σ : Type} (P : PoolModel σ) (s : BState σ) (e : BehaviourEvent)
        (rest : List BehaviourEvent), s.pending = e :: rest →
          ∃ r, Perform P s = some r ∧ r.out = some e ∧
            r.state.pending = rest ∧ r.state.pool = s.pool ∧
            r.state.waiters = s.waiters ∧ r.notifs = [] ∧ r.closes = []) ∧
    (∀ {σ : Type} (P : PoolModel σ) (s : BState σ) (adv : AdvanceRes σ)
        (e : BehaviourEvent), s.pending = [] →
          advancePool P s .poll = some adv → adv.out = some e →
            Perform P s = some ⟨some e, adv.state, adv.notifs, adv.closes⟩) ∧
    (∀ {σ : Type} (P : PoolModel σ) (s : BState σ) (adv : AdvanceRes σ),
        s.pending = [] → advancePool P s .poll = some adv → adv.out = none →
          Perform P s = some ⟨none, adv.state, adv.notifs, adv.closes⟩) ∧
    (∀ {σ : Type} (P : PoolModel σ) (s : BState σ) (ev : BehaviourEvent)
        (r : NotifyRes σ), Notify P s ev = some r →
          ∃ d, r.state.pending = s.pending ++ d) := by
  refine ⟨?_, ?_, ?_, ?_⟩
  · intro σ P s e rest hp
    exact ⟨⟨some e, signalReady { s with pending := rest }, [], []⟩,
      by simp [Perform, performLoop, hp], rfl, by simp, by simp, by simp,
      rfl, rfl⟩
  · intro σ P s adv e hp hadv hout
    simp [Perform, performLoop, hp, hadv, hout]
  · intro σ P s adv hp hadv hout
    have hpend : adv.state.pending = [] := by
      rw [(advancePool_frame P s .poll adv hadv).2.1, hp]
    simp [Perform, performLoop, hp, hadv, hout, hpend]
  · intro σ P s ev r h
    obtain ⟨core, adv, hsw, hadv, rfl⟩ := notify_unfold P s ev r h
    obtain ⟨d0, hd0⟩ := notifySwitch_pending_extends s ev core hsw
    refine ⟨d0 ++ adv.out.toList, ?_⟩
    simp [(advancePool_frame P core.state core.cmd adv hadv).2.1, hd0]

/-- C3: `Notify` translates each incoming event into exactly the pool event
of the translation table.  StartQuery becomes AddQuery and registers the
waiter when (and only when) a notification target was supplied; StopQuery
becomes StopQuery with no side effect; GetCloserNodesSuccess becomes
MessageResponse, queues one add-discovered-address event per returned node
(in order, ahead of any pool-advance output) and notifies the registered
waiter first with a progress event carrying the response; and
GetCloserNodesFailure becomes MessageFailure with no side effect (no
registry change, no progress notification, nothing queued beyond the
pool-advance output). -/
theorem notify_translation_table :
    (∀ {σ : Type} (P : PoolModel σ) (s : BState σ) (qid : QueryID)
        (target : KadKey) (protocolID : String) (message : Nat)
        (known : List PeerID) (wopt : Option WaiterId) (r : NotifyRes σ),
      Notify P s (.startQuery qid target protocolID message known wopt) =
          some r →
        r.cmd = .addQuery qid target protocolID message
          (SliceOfPeerIDToSliceOfNodeID known) ∧
        r.state.waiters = (match wopt with
          | some w => insertWaiter s.waiters qid w
          | none => s.waiters)) ∧
    (∀ {σ : Type} (P : PoolModel σ) (s : BState σ) (qid : QueryID)
        (r : NotifyRes σ),
      Notify P s (.stopQuery qid) = some r →
        r.cmd = .stopQuery qid ∧ r.state.waiters = s.waiters ∧
        (∃ d, r.state.pending = s.pending ++ d ∧ d.length ≤ 1) ∧
        (∀ n ∈ r.notifs, ∀ nid q resp, n.2 ≠ .queryProgressed nid q resp)) ∧
    (∀ {σ : Type} (P : PoolModel σ) (s : BState σ) (qid : QueryID)
        (dst : AddrInfo) (target : KadKey) (closer : List NodeInfo)
        (r : NotifyRes σ),
      Notify P s (.getCloserNodesSuccess qid dst target closer) = some r →
        r.cmd = .messageResponse dst.id qid ⟨target, closer⟩ ∧
        r.state.waiters = s.waiters ∧
        (∃ d, r.state.pending = s.pending ++
          closer.map (fun info => .addAddrInfo info) ++ d ∧ d.length ≤ 1) ∧
        (∀ w, lookupWaiter s.waiters qid = some w → r.notifs.head? =
          some (w, .queryProgressed dst.id qid ⟨target, closer⟩))) ∧
    (∀ {σ : Type} (P : PoolModel σ) (s : BState σ) (qid : QueryID)
        (dst : AddrInfo) (err : ErrVal) (r : NotifyRes σ),
      Notify P s (.getCloserNodesFailure qid dst err) = some r →
        r.cmd = .messageFailure dst.id qid err ∧
        r.state.waiters = s.waiters ∧
        (∃ d, r.state.pending = s.pending ++ d ∧ d.length ≤ 1) ∧
        (∀ n ∈ r.notifs, ∀ nid q resp, n.2 ≠ .queryProgressed nid q resp)) := by
  refine ⟨?_, ?_, ?_, ?_⟩
  · intro σ P s qid target protocolID message known wopt r h
    obtain ⟨core, adv, hsw, hadv, rfl⟩ := notify_unfold P s _ r h
    have hfr := advancePool_frame P core.state core.cmd adv hadv
    simp only [notifySwitch, Option.some.injEq] at hsw
    subst hsw
    refine ⟨rfl, ?_⟩
    simp [hfr.1]
  · intro σ P s qid r h
    obtain ⟨core, adv, hsw, hadv, rfl⟩ := notify_unfold P s _ r h
    have hfr := advancePool_frame P core.state core.cmd adv hadv
    have hns := advancePool_notifs P core.state core.cmd adv hadv
    simp only [notifySwitch, Option.some.injEq] at hsw
    subst hsw
    refine ⟨rfl, by simp [hfr.1], ⟨adv.out.toList, ?_, ?_⟩, ?_⟩
    · simp [hfr.2.1]
    · cases adv.out <;> simp
    · intro n hn nid q resp
      simp at hn
      obtain ⟨q', stats', hq, _⟩ := hns n hn
      simp [hq]
  · intro σ P s qid dst target closer r h
    obtain ⟨core, adv, hsw, hadv, rfl⟩ := notify_unfold P s _ r h
    have hfr := advancePool_frame P core.state core.cmd adv hadv
    simp only [notifySwitch, Option.some.injEq] at hsw
    subst hsw
    refine ⟨rfl, by simp [hfr.1], ⟨adv.out.toList, ?_, ?_⟩, ?_⟩
    · simp [hfr.2.1]
    · cases adv.out <;> simp
    · intro w hw
      simp [hw]
  · intro σ P s qid dst err r h
    obtain ⟨core, adv, hsw, hadv, rfl⟩ := notify_unfold P s _ r h
    have hfr := advancePool_frame P core.state core.cmd adv hadv
    have hns := advancePool_notifs P core.state core.cmd adv hadv
    simp only [notifySwitch, Option.some.injEq] at hsw
    subst hsw
    refine ⟨rfl, by simp [hfr.1], ⟨adv.out.toList, ?_, ?_⟩, ?_⟩
    · simp [hfr.2.1]
    · cases adv.out <;> simp
    · intro n hn nid q resp
      simp at hn
      obtain ⟨q', stats', hq, _⟩ := hns n hn
      simp [hq]

/-- C7: fire-and-forget mode.  Over any sequence of `Notify`/`Perform`
calls in which every `StartQuery` for query `qid` supplies no notification
target, starting from a state where `qid` has no registered waiter, no
waiter is ever registered for `qid` and no progress or finish notification
for `qid` is ever delivered: both the progress path and the finish path
look up the registry and do nothing when no entry exists. -/
theorem fire_and_forget_no_notifications {σ : Type} (P : PoolModel σ)
    (s : BState σ) (ops : List BehaviourOp) (qid : QueryID)
    (hops : ∀ op ∈ ops, fireAndForgetOp qid op = true)
    (hnone : lookupWaiter s.waiters qid = none) :
    lookupWaiter (runOps P s ops).1.waiters qid = none ∧
      ∀ n ∈ (runOps P s ops).2, notifForQuery qid n.2 = false := by
  induction ops generalizing s with
  | nil => exact ⟨by simpa [runOps] using hnone, by simp [runOps]⟩
  | cons op rest ih =>
    have hop := hops op (by simp)
    have hrest : ∀ op' ∈ rest, fireAndForgetOp qid op' = true := by
      intro op' hmem
      exact hops op' (by simp [hmem])
    cases hstep : runStep P s op with
    | none =>
      exact ⟨by simpa [runOps, hstep] using hnone, by simp [runOps, hstep]⟩
    | some pr =>
      rcases pr with ⟨s', ns⟩
      have hfacts : lookupWaiter s'.waiters qid = none ∧
          ∀ n ∈ ns, notifForQuery qid n.2 = false := by
        cases op with
        | notifyOp ev =>
          simp only [runStep, Option.map_eq_some'] at hstep
          obtain ⟨r, hr, heq⟩ := hstep
          simp only [Prod.mk.injEq] at heq
          obtain ⟨rfl, rfl⟩ := heq
          exact notify_fire_and_forget_step P s ev r qid hr hop hnone
        | performOp =>
          simp only [runStep, Option.map_eq_some'] at hstep
          obtain ⟨r, hr, heq⟩ := hstep
          simp only [Prod.mk.injEq] at heq
          obtain ⟨rfl, rfl⟩ := heq
          exact perform_fire_and_forget_step P s r qid hr hnone
      obtain ⟨ihl, ihn⟩ := ih s' hrest hfacts.1
      refine ⟨by simpa [runOps, hstep] using ihl, ?_⟩
      intro n hn
      simp only [runOps, hstep, List.mem_append] at hn
      rcases hn with hn | hn
      · exact hfacts.2 n hn
      · exact ihn n hn

/-- C7 witness: a concrete fire-and-forget run — start `q1` with no
notification target, drain, then feed a closer-nodes success and let the
pool finish the query — registers no waiter for `q1` and delivers no
notification at all. -/
theorem fire_and_forget_no_notifications_witness :
    (∀ op ∈ [BehaviourOp.notifyOp (.startQuery "q1" 0 "proto" 0 ["n1"] none),
        .performOp,
        .notifyOp (.getCloserNodesSuccess "q1" ⟨"n1", []⟩ 0 []),
        .performOp],
      fireAndForgetOp "q1" op = true) ∧
    lookupWaiter (BState.waiters
      (⟨[.queryMessage "q1" (.peerID "n1") 0, .idle,
          .queryFinished "q1" 3, .idle], [], [], false⟩ :
        BState (List PoolState))) "q1" = none ∧
    (lookupWaiter (runOps scriptPool
        ⟨[.queryMessage "q1" (.peerID "n1") 0, .idle,
          .queryFinished "q1" 3, .idle], [], [], false⟩
        [.notifyOp (.startQuery "q1" 0 "proto" 0 ["n1"] none),
         .performOp,
         .notifyOp (.getCloserNodesSuccess "q1" ⟨"n1", []⟩ 0 []),
         .performOp]).1.waiters "q1" = none ∧
      ∀ n ∈ (runOps scriptPool
        ⟨[.queryMessage "q1" (.peerID "n1") 0, .idle,
          .queryFinished "q1" 3, .idle], [], [], false⟩
        [.notifyOp (.startQuery "q1" 0 "proto" 0 ["n1"] none),
         .performOp,
         .notifyOp (.getCloserNodesSuccess "q1" ⟨"n1", []⟩ 0 []),
         .performOp]).2, notifForQuery "q1" n.2 = false) :=
  ⟨by decide, rfl,
    fire_and_forget_no_notifications scriptPool
      ⟨[.queryMessage "q1" (.peerID "n1") 0, .idle,
          .queryFinished "q1" 3, .idle], [], [], false⟩
      [.notifyOp (.startQuery "q1" 0 "proto" 0 ["n1"] none),
       .performOp,
       .notifyOp (.getCloserNodesSuccess "q1" ⟨"n1", []⟩ 0 []),
       .performOp] "q1" (by decide) rfl⟩

/-- C1 failing run, initial state: fresh behaviour whose pool will answer
the first `Advance` with `QueryFinished q1` and every later one with
`Idle`. -/
def c1Start : BState (List PoolState) :=
  ⟨[.queryFinished "q1" 5, .idle], [], [], false⟩

/-- C1 failing run, first event: start query `q1` with a waiter (handle 7)
registered for notifications. -/
def c1EvStart : BehaviourEvent := .startQuery "q1" 0 "proto" 0 [] (some 7)

/-- C1 failing run, second event: a closer-nodes success for `q1` arriving
after the pool already reported `q1` finished. -/
def c1EvSuccess : BehaviourEvent := .getCloserNodesSuccess "q1" ⟨"n1", []⟩ 0 []

/-- C1: the code violates the claim.  Processing `StartQuery` makes the
pool report `QueryFinished q1`; the waiter is notified with a finish event
and closed — but its registration is NOT released (query.go:164-172 has no
`delete(p.waiters, ...)`), and a later `GetCloserNodesSuccess` for the same
query still finds the waiter and delivers a progress event after the
finish. -/
theorem waiter_not_released_after_finish :
    ((Notify scriptPool c1Start c1EvStart).map fun r =>
        (r.notifs, r.closes, lookupWaiter r.state.waiters "q1")) =
      some ([(7, .queryFinished "q1" 5)], [7], some 7) ∧
    (((Notify scriptPool c1Start c1EvStart).bind fun r1 =>
        Notify scriptPool r1.state c1EvSuccess).map fun r => r.notifs) =
      some [(7, .queryProgressed "n1" "q1" ⟨0, []⟩)] := by
  constructor <;> rfl

/-- C4 run: a behaviour with waiter 7 registered for `q1` whose pool will
answer the next `Advance` with `QueryTimeout q1`. -/
def c4Start : BState (List PoolState) :=
  ⟨[.queryTimeout "q1"], [("q1", 7)], [], false⟩

/-- C4 counterexample: at this concrete input the pool reports
`QueryTimeout q1` while waiter 7 is registered for `q1`; `Perform` returns
without crashing but delivers NO notification, closes nothing, and leaves
the registration in place — refuting "the registered waiter (if any) is
notified with a terminal event and its registration is released". -/
theorem queryTimeout_leaks_waiter_registration :
    Perform scriptPool c4Start =
      some ⟨none, ⟨[], [("q1", 7)], [], false⟩, [], []⟩ := by
  rfl

/-- C4 as amended: when `Pool.Advance` reports `QueryTimeout`, the
behaviour does not crash (the TODO branch falls through to `(nil, false)`),
but it performs no waiter notification, no close, and no registry release:
only the pool value changes. -/
theorem queryTimeout_no_crash_no_release (P : PoolModel σ) (s : BState σ)
    (ev : PoolEvent) (pool' : σ) (qid : QueryID)
    (h : P.advance s.pool ev = (pool', .queryTimeout qid)) :
    advancePool P s ev = some ⟨{ s with pool := pool' }, none, [], []⟩ := by
  simp [advancePool, h]

/-- C4 amended-claim witness: the concrete `QueryTimeout` run above,
through the theorem. -/
theorem queryTimeout_no_crash_no_release_witness :
    scriptPool.advance c4Start.pool .poll = ([], .queryTimeout "q1") ∧
    advancePool scriptPool c4Start .poll =
      some ⟨⟨[], [("q1", 7)], [], false⟩, none, [], []⟩ :=
  ⟨rfl, queryTimeout_no_crash_no_release scriptPool c4Start .poll [] "q1" rfl⟩

/-- C10: converting a slice of peer IDs to node IDs preserves the length,
and converting each resulting element back with `NodeIDToPeerID` succeeds
(never panics) and returns the original peer ID at every index. -/
theorem sliceOfPeerIDToSliceOfNodeID_roundtrip :
    ∀ ps : List PeerID,
      (SliceOfPeerIDToSliceOfNodeID ps).length = ps.length ∧
      (∀ i : Nat,
        ((SliceOfPeerIDToSliceOfNodeID ps)[i]?).bind NodeIDToPeerID = ps[i]?) ∧
      (SliceOfPeerIDToSliceOfNodeID ps).map NodeIDToPeerID = ps.map some := by
  intro ps
  refine ⟨by simp [SliceOfPeerIDToSliceOfNodeID], fun i => ?_, ?_⟩
  · simp only [SliceOfPeerIDToSliceOfNodeID, List.getElem?_map]
    cases h : ps[i]? <;> simp [NodeIDToPeerID]
  · simp [SliceOfPeerIDToSliceOfNodeID, List.map_map, Function.comp_def,
      NodeIDToPeerID]

end Coord
